import Mathlib

/-!
Verification of the sqlite-todo-example store operations.

The app (App.js, components/Items.js) manages a single SQLite table

  create table if not exists items (id integer primary key not null, done int, value text)

through four fixed statements:

  * `add` (App.js): guard `if (text === null || text === '') return false;`
    then `insert into items (done, value) values (0, ?)` binding `text`;
  * `update` (Items.js): `select * from items where done = ?` binding
    `done ? 1 : 0`;
  * pending-item press handler (App.js): `update items set done = 1 where id = ?`;
  * done-item press handler (App.js): `delete from items where id = ?`.

We embed the table as a list of rows.  SQLite assigns the implicit rowid for
an `integer primary key` column (no AUTOINCREMENT) as one more than the
largest rowid currently in the table (1 for an empty table), so ids of
deleted maximal rows can be reused.  A JavaScript value reaching the guard
is modelled by `JSVal`: the guard uses strict equality, so it rejects only
`null` and the empty string; `undefined` passes the guard and is bound as
SQL NULL, which we model with `Option String` for the `value` column.
-/

namespace SQLiteTodo

/-- A JavaScript value that can reach the `add` handler: `null`, `undefined`,
or a string.  The guard in `add` compares with strict equality (`===`), so
only `null` and `''` are distinguishable as rejected values. -/
inductive JSVal where
  | jsNull
  | jsUndefined
  | jsStr (s : String)
deriving DecidableEq, Repr

/-- A row of the `items` table: `id integer primary key not null, done int,
value text`.  The `done` column only ever holds 0 or 1 (insert writes 0, the
update statement writes 1), so it is a `Bool`; the `value` column is nullable
text, so it is an `Option String` (`none` = SQL NULL). -/
structure Item where
  id : Nat
  done : Bool
  value : Option String
deriving DecidableEq, Repr

/-- How a JavaScript argument is bound to the `?` placeholder of the insert
statement: strings bind as text, `null` and `undefined` bind as SQL NULL. -/
def sqlBind : JSVal → Option String
  | JSVal.jsNull => none
  | JSVal.jsUndefined => none
  | JSVal.jsStr s => some s

/-- The ids present in the table. -/
def itemIds (items : List Item) : List Nat :=
  items.map Item.id

/-- The rowid SQLite assigns to a fresh insert into `items`: one more than
the largest id in the table, 1 when the table is empty. -/
def nextRowid (items : List Item) : Nat :=
  (itemIds items).foldr Nat.max 0 + 1

/-- `add` from App.js: return unchanged if `text === null || text === ''`,
otherwise run `insert into items (done, value) values (0, ?)`. -/
def add (text : JSVal) (items : List Item) : List Item :=
  if text = JSVal.jsNull ∨ text = JSVal.jsStr "" then items
  else items ++ [{ id := nextRowid items, done := false, value := sqlBind text }]

/-- The `update` method of Items.js: `select * from items where done = ?`
with `done ? 1 : 0` bound, i.e. the rows whose done flag equals the filter. -/
def listByStatus (done : Bool) (items : List Item) : List Item :=
  items.filter (fun it => it.done == done)

/-- The effect of `update items set done = 1 where id = ?` on one row. -/
def markDoneRow (i : Nat) (a : Item) : Item :=
  if a.id = i then { a with done := true } else a

/-- The pending-item press handler of App.js:
`update items set done = 1 where id = ?`. -/
def markDone (i : Nat) (items : List Item) : List Item :=
  items.map (markDoneRow i)

/-- The done-item press handler of App.js:
`delete from items where id = ?`. -/
def deleteItem (i : Nat) (items : List Item) : List Item :=
  items.filter (fun it => it.id != i)

/-- `componentDidMount` of App.js:
`create table if not exists items (...)`.  The database state is `none`
while the table does not exist and `some items` once it does; creating the
table when absent yields an empty table and is a no-op when present. -/
def ensureSchema : Option (List Item) → Option (List Item)
  | none => some []
  | some items => some items

/-- The public operations the UI can issue against the store. -/
inductive Op where
  | create (text : JSVal)
  | markItemDone (i : Nat)
  | deleteById (i : Nat)
  | query (done : Bool)
deriving DecidableEq, Repr

/-- State transition of one operation; `query` is read-only. -/
def applyOp (op : Op) (items : List Item) : List Item :=
  match op with
  | Op.create t => add t items
  | Op.markItemDone i => markDone i items
  | Op.deleteById i => deleteItem i items
  | Op.query _ => items

/-- The state reached by a sequence of operations from the empty table. -/
def runOps (ops : List Op) : List Item :=
  ops.foldl (fun s op => applyOp op s) []

/-- The invariant claimed by the spec for every reachable state: ids are
unique and every row's value is present and non-empty. -/
def specInvariant (items : List Item) : Prop :=
  (itemIds items).Nodup ∧ ∀ it ∈ items, it.value ≠ none ∧ it.value ≠ some ""

instance (items : List Item) : Decidable (specInvariant items) := by
  unfold specInvariant
  infer_instance

/-! ### Helper lemmas -/

theorem le_foldr_max (l : List Nat) (x : Nat) (hx : x ∈ l) :
    x ≤ l.foldr Nat.max 0 := by
  induction l with
  | nil => cases hx
  | cons a t ih =>
    rcases List.mem_cons.mp hx with h | h
    · subst h
      exact Nat.le_max_left _ _
    · exact le_trans (ih h) (Nat.le_max_right _ _)

theorem nextRowid_fresh (s : List Item) : nextRowid s ∉ itemIds s := by
  intro h
  have hle := le_foldr_max (itemIds s) (nextRowid s) h
  have : (itemIds s).foldr Nat.max 0 + 1 ≤ (itemIds s).foldr Nat.max 0 := hle
  omega

theorem markDoneRow_id (i : Nat) (a : Item) : (markDoneRow i a).id = a.id := by
  by_cases h : a.id = i <;> simp [markDoneRow, h]

theorem markDoneRow_value (i : Nat) (a : Item) :
    (markDoneRow i a).value = a.value := by
  by_cases h : a.id = i <;> simp [markDoneRow, h]

theorem itemIds_markDone (i : Nat) (s : List Item) :
    itemIds (markDone i s) = itemIds s := by
  induction s with
  | nil => rfl
  | cons a t ih =>
    simp only [itemIds, markDone, List.map_cons] at *
    rw [markDoneRow_id]
    exact congrArg (a.id :: ·) ih

/-! ### C2: listByStatus returns exactly the rows with the given flag -/

/-- C2: for every store state and boolean `b`, `listByStatus b` returns
exactly those items whose done field equals `b`: every returned item has
`done = b`, and an item of the store appears in the result iff its done
field is `b`. -/
theorem listByStatus_characterization (s : List Item) (b : Bool) (it : Item) :
    it ∈ listByStatus b s ↔ it ∈ s ∧ it.done = b := by
  simp [listByStatus, List.mem_filter]

theorem mem_id_inj (s : List Item) (hnd : (itemIds s).Nodup)
    (a b : Item) (ha : a ∈ s) (hb : b ∈ s) (hid : a.id = b.id) : a = b :=
  List.inj_on_of_nodup_map hnd ha hb hid

theorem add_cases (t : JSVal) (s : List Item) :
    add t s = s ∨
    add t s = s ++ [{ id := nextRowid s, done := false, value := sqlBind t }] := by
  unfold add
  by_cases hg : t = JSVal.jsNull ∨ t = JSVal.jsStr ""
  · left
    simp [hg]
  · right
    simp [hg]

theorem id_mem_itemIds (s : List Item) (a : Item) (ha : a ∈ s) :
    a.id ∈ itemIds s :=
  List.mem_map_of_mem Item.id ha

/-! ### C1: creating a non-empty string inserts exactly one pending row -/

/-- C1: for every store state and every non-empty string `v`, `create v`
appends exactly one new item with done `false` and value `v`: the pending
list grows by exactly that item, the done list is unchanged, and the row
count increases by one. -/
theorem create_nonempty_inserts_one (s : List Item) (v : String) (hv : v ≠ "") :
    add (JSVal.jsStr v) s =
      s ++ [{ id := nextRowid s, done := false, value := some v }] ∧
    listByStatus false (add (JSVal.jsStr v) s) =
      listByStatus false s ++ [{ id := nextRowid s, done := false, value := some v }] ∧
    listByStatus true (add (JSVal.jsStr v) s) = listByStatus true s ∧
    (add (JSVal.jsStr v) s).length = s.length + 1 := by
  have hg : ¬(JSVal.jsStr v = JSVal.jsNull ∨ JSVal.jsStr v = JSVal.jsStr "") := by
    rintro (h | h) <;> simp_all
  refine ⟨?_, ?_, ?_, ?_⟩ <;>
    simp [add, hg, hv, listByStatus, List.filter_append, sqlBind]

/-- C1 witness at a concrete store and value. -/
theorem create_nonempty_inserts_one_witness :
    add (JSVal.jsStr "milk") [] =
      [] ++ [{ id := nextRowid [], done := false, value := some "milk" }] ∧
    listByStatus false (add (JSVal.jsStr "milk") []) =
      listByStatus false [] ++ [{ id := nextRowid [], done := false, value := some "milk" }] ∧
    listByStatus true (add (JSVal.jsStr "milk") []) = listByStatus true [] ∧
    (add (JSVal.jsStr "milk") []).length = List.length ([] : List Item) + 1 :=
  create_nonempty_inserts_one [] "milk" (by decide)

/-! ### C3: marking an existing pending item done -/

/-- C3: if the store contains an item `it` with done `false`, then
`markDone it.id` turns that item into the same row with done `true`
(id and value unchanged), leaves every other item unchanged (membership is
preserved in both directions for rows with a different id), and after the
next refresh the marked row is in the done list while no row of the pending
list carries its id. -/
theorem markDone_existing (s : List Item) (it : Item)
    (hmem : it ∈ s) (_hdone : it.done = false) :
    ({ id := it.id, done := true, value := it.value } : Item) ∈ markDone it.id s ∧
    (∀ j ∈ s, j.id ≠ it.id → j ∈ markDone it.id s) ∧
    (∀ j ∈ markDone it.id s, j.id ≠ it.id → j ∈ s) ∧
    ({ id := it.id, done := true, value := it.value } : Item) ∈
      listByStatus true (markDone it.id s) ∧
    (∀ j ∈ listByStatus false (markDone it.id s), j.id ≠ it.id) := by
  have hrow : markDoneRow it.id it =
      ({ id := it.id, done := true, value := it.value } : Item) := by
    simp [markDoneRow]
  have h1 : ({ id := it.id, done := true, value := it.value } : Item) ∈
      markDone it.id s := by
    rw [← hrow]
    exact List.mem_map_of_mem _ hmem
  refine ⟨h1, ?_, ?_, ?_, ?_⟩
  · intro j hj hne
    have : markDoneRow it.id j = j := by simp [markDoneRow, hne]
    rw [← this]
    exact List.mem_map_of_mem _ hj
  · intro j hj hne
    rcases List.mem_map.mp hj with ⟨a, ha, hfa⟩
    by_cases hai : a.id = it.id
    · exfalso
      apply hne
      rw [← hfa, markDoneRow_id, hai]
    · rw [← hfa]
      simpa [markDoneRow, hai] using ha
  · exact List.mem_filter.mpr ⟨h1, by simp⟩
  · intro j hj
    rcases List.mem_filter.mp hj with ⟨hjm, hjd⟩
    rcases List.mem_map.mp hjm with ⟨a, ha, hfa⟩
    by_cases hai : a.id = it.id
    · exfalso
      have : j.done = true := by
        rw [← hfa]
        simp [markDoneRow, hai]
      simp [this] at hjd
    · intro hji
      apply hai
      rw [← hfa, markDoneRow_id] at hji
      exact hji

/-- C3 witness: marking the only pending item of a one-row store. -/
theorem markDone_existing_witness :
    ({ id := 1, done := true, value := some "a" } : Item) ∈
      markDone 1 [{ id := 1, done := false, value := some "a" }] ∧
    ({ id := 1, done := true, value := some "a" } : Item) ∈
      listByStatus true (markDone 1 [{ id := 1, done := false, value := some "a" }]) :=
  ⟨(markDone_existing [{ id := 1, done := false, value := some "a" }]
      { id := 1, done := false, value := some "a" } (by decide) rfl).1,
   (markDone_existing [{ id := 1, done := false, value := some "a" }]
      { id := 1, done := false, value := some "a" } (by decide) rfl).2.2.2.1⟩

/-! ### C4: mark/delete of an id not in the store is a no-op -/

/-- C4: if no item of the store carries id `i`, then both `markDone i` and
`deleteItem i` leave the store (and hence both status snapshots) unchanged. -/
theorem missing_id_noop (s : List Item) (i : Nat) (h : ∀ it ∈ s, it.id ≠ i) :
    markDone i s = s ∧ deleteItem i s = s ∧
    listByStatus false (markDone i s) = listByStatus false s ∧
    listByStatus true (markDone i s) = listByStatus true s ∧
    listByStatus false (deleteItem i s) = listByStatus false s ∧
    listByStatus true (deleteItem i s) = listByStatus true s := by
  have hmark : markDone i s = s := by
    unfold markDone
    induction s with
    | nil => rfl
    | cons a t ih =>
      have ha : markDoneRow i a = a := by
        simp [markDoneRow, h a (List.mem_cons_self a t)]
      have ht := ih (fun it hit => h it (List.mem_cons_of_mem a hit))
      simp [ha, ht]
  have hdel : deleteItem i s = s := by
    unfold deleteItem
    apply List.filter_eq_self.mpr
    intro a ha
    simpa using h a ha
  exact ⟨hmark, hdel, by rw [hmark], by rw [hmark], by rw [hdel], by rw [hdel]⟩

/-- C4 witness: a store holding id 1 is untouched by operations on id 2. -/
theorem missing_id_noop_witness :
    markDone 2 [{ id := 1, done := false, value := some "a" }] =
      [{ id := 1, done := false, value := some "a" }] ∧
    deleteItem 2 [{ id := 1, done := false, value := some "a" }] =
      [{ id := 1, done := false, value := some "a" }] :=
  ⟨(missing_id_noop [{ id := 1, done := false, value := some "a" }] 2 (by decide)).1,
   (missing_id_noop [{ id := 1, done := false, value := some "a" }] 2 (by decide)).2.1⟩

/-! ### C5: the guard is a no-op for null and the empty string, but not for
an absent (undefined) value -/

/-- C5 counterexample: `create` applied to an absent (`undefined`) value is
not a no-op — starting from the empty store it inserts a row with a NULL
value, and the pending list changes. -/
theorem create_absent_not_noop :
    add JSVal.jsUndefined [] ≠ ([] : List Item) ∧
    listByStatus false (add JSVal.jsUndefined []) ≠ listByStatus false [] := by
  decide

/-- C5 (amended): `create` applied to an empty value — JavaScript `null` or
the empty string — is a no-op: no item is inserted and both the pending and
the done list are unchanged.  (An absent/`undefined` value is NOT rejected
by the guard and does insert a row.) -/
theorem create_empty_noop (s : List Item) :
    add JSVal.jsNull s = s ∧ add (JSVal.jsStr "") s = s ∧
    listByStatus false (add JSVal.jsNull s) = listByStatus false s ∧
    listByStatus true (add JSVal.jsNull s) = listByStatus true s ∧
    listByStatus false (add (JSVal.jsStr "") s) = listByStatus false s ∧
    listByStatus true (add (JSVal.jsStr "") s) = listByStatus true s := by
  refine ⟨by simp [add], by simp [add], ?_, ?_, ?_, ?_⟩ <;> simp [add]

/-! ### C8: round-trip -/

/-- C8: from the empty store, `create "buy milk"` followed by
`listByStatus false` yields exactly one item, with value `"buy milk"` and
done `false`; the done list stays empty. -/
theorem round_trip_buy_milk :
    listByStatus false (add (JSVal.jsStr "buy milk") []) =
      [{ id := 1, done := false, value := some "buy milk" }] ∧
    listByStatus true (add (JSVal.jsStr "buy milk") []) = [] := by
  decide

/-! ### C9: ensureSchema idempotence -/

/-- C9: `ensureSchema` is idempotent — on a store whose table already exists
it leaves the state unchanged, and running it twice equals running it once. -/
theorem ensureSchema_idempotent (d : Option (List Item)) :
    ensureSchema (ensureSchema d) = ensureSchema d ∧
    ∀ items, ensureSchema (some items) = some items := by
  refine ⟨?_, fun items => rfl⟩
  cases d <;> rfl

/-! ### C10: the guard rejects exactly null and the empty string -/

/-- C10: the guard of `add` rejects only the two exact values `null` and
`''`; for every other input — including a whitespace-only string and an
absent (`undefined`) argument — `add` inserts a row whose value is the SQL
binding of that input. -/
theorem add_guard_exact (s : List Item) (v : JSVal) :
    add JSVal.jsNull s = s ∧ add (JSVal.jsStr "") s = s ∧
    (v ≠ JSVal.jsNull → v ≠ JSVal.jsStr "" →
      add v s = s ++ [{ id := nextRowid s, done := false, value := sqlBind v }]) := by
  refine ⟨by simp [add], by simp [add], fun h1 h2 => ?_⟩
  have hg : ¬(v = JSVal.jsNull ∨ v = JSVal.jsStr "") := by tauto
  simp [add, hg]

/-- C10 witness: a whitespace-only string and an absent (`undefined`) value
both pass the guard and are inserted. -/
theorem add_guard_exact_witness :
    add (JSVal.jsStr " ") [] =
      [] ++ [{ id := nextRowid [], done := false, value := sqlBind (JSVal.jsStr " ") }] ∧
    add JSVal.jsUndefined [] =
      [] ++ [{ id := nextRowid [], done := false, value := sqlBind JSVal.jsUndefined }] :=
  ⟨(add_guard_exact [] (JSVal.jsStr " ")).2.2 (by decide) (by decide),
   (add_guard_exact [] JSVal.jsUndefined).2.2 (by decide) (by decide)⟩

/-! ### C6: the done flag is one-way per operation, but a deleted item can be
recreated because SQLite reuses the maximal rowid -/

/-- C6 counterexample: after `create "a"`, `delete 1`, a second `create "a"`
reassigns the freed id 1 and yields a row equal to the deleted one, so a
sequence of public operations can recreate a deleted item. -/
theorem deleted_item_recreated :
    ({ id := 1, done := false, value := some "a" } : Item) ∈
      runOps [Op.create (JSVal.jsStr "a")] ∧
    ({ id := 1, done := false, value := some "a" } : Item) ∉
      runOps [Op.create (JSVal.jsStr "a"), Op.deleteById 1] ∧
    ({ id := 1, done := false, value := some "a" } : Item) ∈
      runOps [Op.create (JSVal.jsStr "a"), Op.deleteById 1,
              Op.create (JSVal.jsStr "a")] := by
  decide

/-- C6 (amended): over any store with distinct ids, a single operation never
turns an item's done flag from true to false (rows keeping their id keep a
true flag), any row whose id was not present before the operation starts
with done false, and `delete i` leaves no row with id `i` — but a deleted
item's id may be reused by a later create, which can recreate a row equal to
a deleted pending one. -/
theorem done_flag_one_way (s : List Item) (op : Op)
    (hnd : (itemIds s).Nodup) :
    (∀ it ∈ s, ∀ it' ∈ applyOp op s, it'.id = it.id → it.done = true →
      it'.done = true) ∧
    (∀ it' ∈ applyOp op s, (∀ it ∈ s, it.id ≠ it'.id) → it'.done = false) ∧
    (∀ i it', it' ∈ applyOp (Op.deleteById i) s → it'.id ≠ i) := by
  refine ⟨?_, ?_, ?_⟩
  · intro it hit it' hit' hid hdone
    cases op with
    | create t =>
      simp only [applyOp] at hit'
      rcases add_cases t s with hc | hc
      · rw [hc] at hit'
        rw [mem_id_inj s hnd it' it hit' hit hid]
        exact hdone
      · rw [hc] at hit'
        rcases List.mem_append.mp hit' with h | h
        · rw [mem_id_inj s hnd it' it h hit hid]
          exact hdone
        · exfalso
          have hnew : it' = { id := nextRowid s, done := false, value := sqlBind t } :=
            List.mem_singleton.mp h
          apply nextRowid_fresh s
          rw [show nextRowid s = it.id from by rw [← hid, hnew]]
          exact id_mem_itemIds s it hit
    | markItemDone j =>
      simp only [applyOp, markDone] at hit'
      rcases List.mem_map.mp hit' with ⟨a, ha, hfa⟩
      have haid : a.id = it.id := by
        rw [← hid, ← hfa, markDoneRow_id]
      have : a = it := mem_id_inj s hnd a it ha hit haid
      subst this
      rw [← hfa]
      by_cases hj : a.id = j
      · simp [markDoneRow, hj]
      · simpa [markDoneRow, hj] using hdone
    | deleteById j =>
      simp only [applyOp] at hit'
      have : it' ∈ s := List.mem_of_mem_filter hit'
      rw [mem_id_inj s hnd it' it this hit hid]
      exact hdone
    | query b =>
      simp only [applyOp] at hit'
      rw [mem_id_inj s hnd it' it hit' hit hid]
      exact hdone
  · intro it' hit' hfresh
    cases op with
    | create t =>
      simp only [applyOp] at hit'
      rcases add_cases t s with hc | hc
      · rw [hc] at hit'
        exact absurd rfl (hfresh it' hit')
      · rw [hc] at hit'
        rcases List.mem_append.mp hit' with h | h
        · exact absurd rfl (hfresh it' h)
        · rw [List.mem_singleton.mp h]
    | markItemDone j =>
      simp only [applyOp, markDone] at hit'
      rcases List.mem_map.mp hit' with ⟨a, ha, hfa⟩
      exfalso
      apply hfresh a ha
      rw [← hfa, markDoneRow_id]
    | deleteById j =>
      simp only [applyOp] at hit'
      exact absurd rfl (hfresh it' (List.mem_of_mem_filter hit'))
    | query b =>
      simp only [applyOp] at hit'
      exact absurd rfl (hfresh it' hit')
  · intro i it' hit'
    simp only [applyOp, deleteItem] at hit'
    have := (List.mem_filter.mp hit').2
    simpa using this

/-- C6 witness: a done row keeps its flag across a read-only operation. -/
theorem done_flag_one_way_witness :
    ({ id := 1, done := true, value := some "a" } : Item).done = true :=
  (done_flag_one_way [{ id := 1, done := true, value := some "a" }]
      (Op.query false) (by decide)).1
    { id := 1, done := true, value := some "a" } (by decide)
    { id := 1, done := true, value := some "a" } (by decide) rfl rfl

/-! ### C7: reachable-state invariant -/

/-- C7 counterexample: the spec's invariant fails on a reachable state —
`create` applied to an absent (`undefined`) value inserts a row whose value
column is SQL NULL, so a reachable store holds an item with an absent
value. -/
theorem spec_invariant_fails_on_undefined :
    ¬ specInvariant (runOps [Op.create JSVal.jsUndefined]) := by
  decide

/-- The invariant that actually holds of every reachable state: ids are
unique and no value column holds the empty string (a NULL value is
possible). -/
def storeInvariant (items : List Item) : Prop :=
  (itemIds items).Nodup ∧ ∀ it ∈ items, it.value ≠ some ""

theorem itemIds_append_one (s : List Item) (a : Item) :
    itemIds (s ++ [a]) = itemIds s ++ [a.id] := by
  simp [itemIds]

theorem nodup_itemIds_append_one (s : List Item) (a : Item)
    (hnd : (itemIds s).Nodup) (hfresh : a.id ∉ itemIds s) :
    (itemIds (s ++ [a])).Nodup := by
  rw [itemIds_append_one]
  simp [List.nodup_append, hnd, hfresh]

theorem sqlBind_ne_empty (t : JSVal) (hg : t ≠ JSVal.jsStr "") :
    sqlBind t ≠ some "" := by
  cases t with
  | jsNull => simp [sqlBind]
  | jsUndefined => simp [sqlBind]
  | jsStr u =>
    intro hu
    have hu' : some u = some "" := hu
    have hue : u = "" := by injection hu'
    exact hg (by rw [hue])

theorem storeInvariant_add (t : JSVal) (s : List Item)
    (h : storeInvariant s) : storeInvariant (add t s) := by
  rcases add_cases t s with hc | hc
  · rw [hc]
    exact h
  · rw [hc]
    by_cases hg : t = JSVal.jsStr ""
    · exfalso
      have hadd : add t s = s := by simp [add, hg]
      rw [hadd] at hc
      have hlen := congrArg List.length hc
      simp only [List.length_append, List.length_singleton] at hlen
      omega
    · constructor
      · exact nodup_itemIds_append_one s _ h.1 (nextRowid_fresh s)
      · intro it hit
        rcases List.mem_append.mp hit with hm | hm
        · exact h.2 it hm
        · rw [List.mem_singleton.mp hm]
          exact sqlBind_ne_empty t hg

theorem storeInvariant_markDone (i : Nat) (s : List Item)
    (h : storeInvariant s) : storeInvariant (markDone i s) := by
  constructor
  · rw [itemIds_markDone]
    exact h.1
  · intro it' hit'
    rcases List.mem_map.mp hit' with ⟨a, ha, hfa⟩
    rw [← hfa, markDoneRow_value]
    exact h.2 a ha

theorem storeInvariant_delete (i : Nat) (s : List Item)
    (h : storeInvariant s) : storeInvariant (deleteItem i s) := by
  constructor
  · have hsub : List.Sublist (deleteItem i s) s := List.filter_sublist s
    exact List.Nodup.sublist (hsub.map Item.id) h.1
  · intro it hit
    exact h.2 it (List.mem_of_mem_filter hit)

theorem storeInvariant_applyOp (op : Op) (s : List Item)
    (h : storeInvariant s) : storeInvariant (applyOp op s) := by
  cases op with
  | create t => exact storeInvariant_add t s h
  | markItemDone i => exact storeInvariant_markDone i s h
  | deleteById i => exact storeInvariant_delete i s h
  | query b => exact h

theorem storeInvariant_foldl (ops : List Op) (s : List Item)
    (h : storeInvariant s) :
    storeInvariant (ops.foldl (fun t op => applyOp op t) s) := by
  induction ops generalizing s with
  | nil => exact h
  | cons op rest ih => exact ih _ (storeInvariant_applyOp op s h)

/-- C7 (amended): every reachable state — any sequence of public operations
from the empty store — has pairwise distinct ids and no item whose value is
the empty string; a value can however be absent (SQL NULL), because `create`
does not reject an `undefined` argument. -/
theorem store_invariant_reachable (ops : List Op) :
    (itemIds (runOps ops)).Nodup ∧ ∀ it ∈ runOps ops, it.value ≠ some "" :=
  storeInvariant_foldl ops [] ⟨List.nodup_nil, by simp⟩

end SQLiteTodo
